import Mathlib

/-!
# The JSON credential manager of `main.go`

A shallow embedding of `src/main.go`: the `Credentials` record, the `Manager`
holding the username index, `config.init`, `parseConfig`, `Manager.Configure`
and `Manager.Authenticate`.

Conventions.
* A Go pointer is an `Option`: `none` is `nil`.
* A Go `map[string]V` is an association list with unique keys (`GoMap V`);
  a `nil` map is `none : Option (GoMap V)`.
* A Go `error` result is an `Option Err`: `none` is `nil`.
* A nil-pointer dereference is the outcome `Completion.panicked`.
* What `main.go` imports and does not define (file system, JSON decoder, scope
  encoder) is a field of `Env`.
-/

namespace RevaAuthJson

/-! ## Go maps -/

/-- A Go `map[string]V`: key/value pairs, at most one pair per key. -/
abbrev GoMap (V : Type) := List (String × V)

namespace GoMap

/-- The map literal `map[string]V{}`. -/
def empty {V : Type} : GoMap V := []

/-- The read `v, ok := m[k]`: `none` when `ok` is false. -/
def get {V : Type} (m : GoMap V) (k : String) : Option V :=
  match m with
  | [] => none
  | (k', v) :: rest => if k' = k then some v else get rest k

/-- The pairs of `m` whose key is not `k`. -/
def erase {V : Type} (m : GoMap V) (k : String) : GoMap V :=
  match m with
  | [] => []
  | (k', v) :: rest => if k' = k then erase rest k else (k', v) :: erase rest k

/-- The write `m[k] = v`: a pair already held under `k` is replaced. -/
def set {V : Type} (m : GoMap V) (k : String) (v : V) : GoMap V :=
  (k, v) :: erase m k

end GoMap

/-! ## Types declared by the imported packages -/

/-- Values of Go's `error` that the manager sees or makes. -/
inductive Err where
  /-- The value `errtypes.InvalidCredentials(username)`. -/
  | InvalidCredentials (username : String)
  /-- The value `errors.Wrap(cause, msg)`. -/
  | Wrap (cause : Err) (msg : String)
  /-- An error made by an imported package. -/
  | External (msg : String)
  deriving DecidableEq

/-- The enumeration `user.UserType` of the CS3 APIs. -/
inductive UserType where
  | USER_TYPE_INVALID
  | USER_TYPE_PRIMARY
  | USER_TYPE_SECONDARY
  | USER_TYPE_SERVICE
  | USER_TYPE_APPLICATION
  | USER_TYPE_GUEST
  | USER_TYPE_FEDERATED
  | USER_TYPE_LIGHTWEIGHT
  deriving DecidableEq

/-- The enumeration `authpb.Role` of the CS3 APIs. -/
inductive Role where
  | ROLE_INVALID
  | ROLE_OWNER
  | ROLE_LEGACY
  | ROLE_VIEWER
  | ROLE_EDITOR
  | ROLE_FILE_EDITOR
  | ROLE_COOWNER
  | ROLE_UPLOADER
  | ROLE_MANAGER
  deriving DecidableEq

/-- The message `user.UserId`. -/
structure UserId where
  Idp : String
  OpaqueId : String
  Type_ : UserType
  deriving DecidableEq

/-- The message `typespb.OpaqueEntry`. -/
structure OpaqueEntry where
  Decoder : String
  Value : List Nat
  deriving DecidableEq

/-- The message `typespb.Opaque`. -/
structure Opaque where
  Map : Option (GoMap (Option OpaqueEntry))
  deriving DecidableEq

/-- The message `authpb.Scope`. -/
structure Scope where
  Resource : Option OpaqueEntry
  Role : Role
  deriving DecidableEq

/-- The scope set `map[string]*authpb.Scope`; `none` is the nil map. -/
abbrev ScopeMap := Option (GoMap (Option Scope))

/-- The message `user.User`, the identity handed back to the caller. -/
structure User where
  Id : Option UserId
  Username : String
  Mail : String
  MailVerified : Bool
  DisplayName : String
  Groups : List String
  UidNumber : Int
  GidNumber : Int
  Opaque : Option Opaque
  deriving DecidableEq

/-! ## Types declared by `main.go` -/

/-- The struct `Credentials`. -/
structure Credentials where
  ID : Option UserId
  Username : String
  Mail : String
  MailVerified : Bool
  DisplayName : String
  Secret : String
  Groups : List String
  UIDNumber : Int
  GIDNumber : Int
  Opaque : Option Opaque
  deriving DecidableEq

/-- The struct `Manager`: `credentials map[string]*Credentials`. -/
structure Manager where
  credentials : Option (GoMap (Option Credentials))
  deriving DecidableEq

/-- The struct `config`. -/
structure config where
  Users : String
  deriving DecidableEq

/-- A value of Go's `interface{}` as it occurs in a configuration map. -/
inductive ConfValue where
  | null
  | str (s : String)
  | bool (b : Bool)
  | num (n : Int)
  | list (xs : List String)
  deriving DecidableEq

/-- The argument `map[string]interface{}` of `Configure`. -/
abbrev RawConfig := GoMap ConfValue

/-- How a call ends: it returns a value, or it panics. -/
inductive Completion (α : Type) where
  | returned (v : α)
  | panicked
  deriving DecidableEq

/-- The imported functions `main.go` calls. -/
structure Env where
  /-- The call `ioutil.ReadFile(path)`. -/
  ReadFile : String → Except Err (List Nat)
  /-- The call `json.Unmarshal(f, &credentials)` on a fresh `[]*Credentials`. -/
  Unmarshal : List Nat → Except Err (List (Option Credentials))
  /-- The call `scope.AddLightweightAccountScope(role, scopes)`. -/
  AddLightweightAccountScope : Role → ScopeMap → Except Err ScopeMap
  /-- The call `scope.AddOwnerScope(scopes)`. -/
  AddOwnerScope : ScopeMap → Except Err ScopeMap

/-! ## The functions of `main.go` -/

/-- The method `config.init`. -/
def config.init (c : config) : config :=
  if c.Users = "" then { c with Users := "/etc/revad/users.json" } else c

/-- Modelled from the spec: `mapstructure.Decode(m, c)` for the struct `config`,
which belongs to an imported package. The one recognized key is `users`, a
string; a key that is missing or holds `nil` leaves the field as it is, and a
value of another kind is a decoding error. -/
def Decode (m : RawConfig) (c : config) : Except Err config :=
  match GoMap.get m "users" with
  | none => .ok c
  | some .null => .ok c
  | some (.str s) => .ok { c with Users := s }
  | some _ => .error (.External "users: expected type string")

/-- The function `parseConfig`. -/
def parseConfig (m : RawConfig) : Except Err config :=
  match Decode m { Users := "" } with
  | .error err => .error (.Wrap err "error decoding conf")
  | .ok c => .ok c.init

/-- The loop `for _, c := range credentials { m.credentials[c.Username] = c }`
run on the map `cur`: the maps the index has been after each write, oldest
first, and how the loop ended. Reading `c.Username` through a nil `c` panics. -/
def rangeInsert (cur : GoMap (Option Credentials)) :
    List (Option Credentials) → List (GoMap (Option Credentials)) × Completion Unit
  | [] => ([], .returned ())
  | none :: _ => ([], .panicked)
  | some c :: rest =>
    let next := GoMap.set cur c.Username (some c)
    let r := rangeInsert next rest
    (next :: r.1, r.2)

/-- A run of `Configure`: every value the manager has had, the state at entry
first and the state at exit last, and how the call ended. -/
structure Run where
  first : Manager
  later : List Manager
  exit : Completion (Option Err)
  deriving DecidableEq

/-- The state of the manager when the run ends. -/
def Run.final (r : Run) : Manager := r.later.getLastD r.first

/-- Every value the manager has had during the run, oldest first. -/
def Run.states (r : Run) : List Manager := r.first :: r.later

/-- The method `Manager.Configure`. An error of `parseConfig` is returned before
the manager is written; then `m.credentials` is set to a new empty map, and
the file is read and parsed, an error of either being returned with the empty
map in place; then the loop writes the records into that map. -/
def Configure (env : Env) (m : Manager) (ml : RawConfig) : Run :=
  match parseConfig ml with
  | .error err => ⟨m, [], .returned (some err)⟩
  | .ok c =>
    let fresh : Manager := { credentials := some GoMap.empty }
    match env.ReadFile c.Users with
    | .error err => ⟨m, [fresh], .returned (some err)⟩
    | .ok f =>
      match env.Unmarshal f with
      | .error err => ⟨m, [fresh], .returned (some err)⟩
      | .ok credentials =>
        let r := rangeInsert GoMap.empty credentials
        ⟨m, fresh :: r.1.map (fun (idx : GoMap (Option Credentials)) => ({ credentials := some idx } : Manager)),
          match r.2 with
          | .returned _ => .returned none
          | .panicked => .panicked⟩

/-- The read `c, ok := m.credentials[username]`; a nil map holds no key. -/
def Manager.lookup (m : Manager) (username : String) : Option (Option Credentials) :=
  match m.credentials with
  | none => none
  | some idx => GoMap.get idx username

/-- The choice of scope derivation in `Authenticate`:
`if c.ID != nil && c.ID.Type == user.UserType_USER_TYPE_LIGHTWEIGHT` calls
`scope.AddLightweightAccountScope(authpb.Role_ROLE_OWNER, nil)`, the `else`
branch calls `scope.AddOwnerScope(nil)`. -/
def deriveScopes (env : Env) (c : Credentials) : Except Err ScopeMap :=
  match c.ID with
  | some id =>
    if id.Type_ = UserType.USER_TYPE_LIGHTWEIGHT then
      env.AddLightweightAccountScope Role.ROLE_OWNER none
    else
      env.AddOwnerScope none
  | none => env.AddOwnerScope none

/-- The three results `(*user.User, map[string]*authpb.Scope, error)` of
`Authenticate`. -/
structure AuthResult where
  user : Option User
  scopes : ScopeMap
  err : Option Err
  deriving DecidableEq

/-- The method `Manager.Authenticate`. The `context.Context` argument is not
used by the body. Reading `c.Secret` through a nil `c` panics. -/
def Authenticate (env : Env) (m : Manager) (username : String) (secret : String) :
    Completion AuthResult :=
  match m.lookup username with
  | some none => .panicked
  | some (some c) =>
    if c.Secret = secret then
      match deriveScopes env c with
      | .error err => .returned ⟨none, none, some err⟩
      | .ok scopes =>
        .returned ⟨some
          { Id := c.ID
            Username := c.Username
            Mail := c.Mail
            MailVerified := c.MailVerified
            DisplayName := c.DisplayName
            Groups := c.Groups
            UidNumber := c.UIDNumber
            GidNumber := c.GIDNumber
            Opaque := c.Opaque }, scopes, none⟩
    else .returned ⟨none, none, some (.InvalidCredentials username)⟩
  | none => .returned ⟨none, none, some (.InvalidCredentials username)⟩

/-! ## Example data -/

/-- A primary account. -/
def alice : Credentials :=
  { ID := some { Idp := "idp", OpaqueId := "u-1", Type_ := .USER_TYPE_PRIMARY }
    Username := "alice", Mail := "alice@example.org", MailVerified := true
    DisplayName := "Alice", Secret := "wonderland", Groups := ["staff"]
    UIDNumber := 1001, GIDNumber := 100, Opaque := none }

/-- A lightweight account. -/
def bob : Credentials :=
  { ID := some { Idp := "idp", OpaqueId := "u-2", Type_ := .USER_TYPE_LIGHTWEIGHT }
    Username := "bob", Mail := "bob@example.org", MailVerified := false
    DisplayName := "Bob", Secret := "builder", Groups := []
    UIDNumber := 1002, GIDNumber := 100, Opaque := none }

/-- A second record under the username of `alice`, with no identifier. -/
def alice2 : Credentials :=
  { ID := none
    Username := "alice", Mail := "a2@example.org", MailVerified := false
    DisplayName := "Alice II", Secret := "looking-glass", Groups := []
    UIDNumber := 2001, GIDNumber := 200, Opaque := none }

/-- The scope set the example encoder makes for an owner. -/
def ownerScopes : ScopeMap := some [("user", some { Resource := none, Role := .ROLE_OWNER })]

/-- The scope set the example encoder makes for a lightweight account. -/
def lightScopes : ScopeMap := some [("share", some { Resource := none, Role := .ROLE_OWNER })]

/-- An environment with three files: the default one holds `alice`, `bob` and
`alice2`, `/tmp/users.json` holds `bob` alone, and `/tmp/broken.json` does not
parse. -/
def envOk : Env where
  ReadFile := fun path =>
    if path = "/etc/revad/users.json" then .ok [1]
    else if path = "/tmp/users.json" then .ok [2]
    else if path = "/tmp/broken.json" then .ok [0]
    else .error (.External "no such file")
  Unmarshal := fun f =>
    if f = [1] then .ok [some alice, some bob, some alice2]
    else if f = [2] then .ok [some bob]
    else .error (.External "invalid character")
  AddLightweightAccountScope := fun _ _ => .ok lightScopes
  AddOwnerScope := fun _ => .ok ownerScopes

/-- An environment whose scope encoder fails, with one error for each of its
two functions. -/
def envNoScopes : Env where
  ReadFile := envOk.ReadFile
  Unmarshal := envOk.Unmarshal
  AddLightweightAccountScope := fun _ _ => .error (.External "marshal lightweight")
  AddOwnerScope := fun _ => .error (.External "marshal owner")

/-- The manager `&Manager{}` that `main` hands to the plugin host. -/
def newManager : Manager := { credentials := none }

/-- The manager after `Configure` has loaded the default file. -/
def loaded : Manager := (Configure envOk newManager []).final

/-- The manager after `Configure` has loaded `/tmp/users.json`. -/
def loadedBob : Manager := (Configure envOk newManager [("users", .str "/tmp/users.json")]).final

/-! ## Notions used to state the properties -/

/-- The index after the records of `L` have been written into `cur` one by one,
in list order, each under its own username. -/
def insertAll (cur : GoMap (Option Credentials)) (L : List Credentials) :
    GoMap (Option Credentials) :=
  L.foldl (fun acc c => GoMap.set acc c.Username (some c)) cur

/-- The call `Configure(ml)` in `env` gets as far as the loop with the list of
records `L`: the configuration decodes, the file is read and parses to `L`. -/
def Loads (env : Env) (ml : RawConfig) (L : List Credentials) : Prop :=
  ∃ c f, parseConfig ml = .ok c ∧ env.ReadFile c.Users = .ok f ∧
    env.Unmarshal f = .ok (L.map some)

/-- The call `Configure(ml)` reads the file at `path` and no other: an error of
`ReadFile` at `path` is what the call returns, and two environments that agree
on the file at `path` and on the JSON decoder give the same run. -/
def ReadsFrom (ml : RawConfig) (path : String) : Prop :=
  (∀ (env : Env) (m : Manager) (e : Err), env.ReadFile path = .error e →
    (Configure env m ml).exit = .returned (some e)) ∧
  (∀ (env env' : Env) (m : Manager), env.ReadFile path = env'.ReadFile path →
    env.Unmarshal = env'.Unmarshal → Configure env m ml = Configure env' m ml)

/-- Every key of the index holds a record, and that record has the key as its
username. -/
def KeyedByUsername (m : Manager) : Prop :=
  ∀ k v, m.lookup k = some v → ∃ c, v = some c ∧ c.Username = k

/-- The states a manager can be in: the one `main` creates, and the state any
call of `Configure` leaves behind, whatever the environment and however the
call ends. -/
inductive Reachable : Manager → Prop where
  | fresh : Reachable newManager
  | configure (env : Env) (m : Manager) (ml : RawConfig) :
      Reachable m → Reachable (Configure env m ml).final

/-! ## Lemmas on maps -/

theorem GoMap.get_erase_ne {V : Type} (m : GoMap V) (k k' : String) (h : k' ≠ k) :
    GoMap.get (GoMap.erase m k) k' = GoMap.get m k' := by
  induction m with
  | nil => rfl
  | cons p rest ih =>
    obtain ⟨a, v⟩ := p
    by_cases ha : a = k
    · have hne : a ≠ k' := fun e => h (e ▸ ha)
      simp only [GoMap.erase, GoMap.get, if_pos ha, if_neg hne, ih]
    · by_cases hk : a = k'
      · simp only [GoMap.erase, GoMap.get, if_neg ha, if_pos hk]
      · simp only [GoMap.erase, GoMap.get, if_neg ha, if_neg hk, ih]

theorem GoMap.get_set {V : Type} (m : GoMap V) (k : String) (v : V) (k' : String) :
    GoMap.get (GoMap.set m k v) k' = if k = k' then some v else GoMap.get m k' := by
  by_cases h : k = k'
  · simp only [GoMap.set, GoMap.get, if_pos h]
  · have h' : k' ≠ k := fun e => h e.symm
    simp only [GoMap.set, GoMap.get, if_neg h, GoMap.get_erase_ne m k k' h']

theorem insertAll_cons (cur : GoMap (Option Credentials)) (c : Credentials)
    (L : List Credentials) :
    insertAll cur (c :: L) = insertAll (GoMap.set cur c.Username (some c)) L := rfl

theorem insertAll_append_singleton (cur : GoMap (Option Credentials)) (L : List Credentials)
    (c : Credentials) :
    insertAll cur (L ++ [c]) = GoMap.set (insertAll cur L) c.Username (some c) := by
  simp [insertAll, List.foldl_append]

/-- A key written by none of the records keeps the value it had. -/
theorem get_insertAll_of_not_mem (cur : GoMap (Option Credentials)) (L : List Credentials)
    (u : String) (h : ∀ x ∈ L, x.Username ≠ u) :
    GoMap.get (insertAll cur L) u = GoMap.get cur u := by
  induction L generalizing cur with
  | nil => rfl
  | cons c L ih =>
    rw [insertAll_cons, ih _ (fun x hx => h x (List.mem_cons_of_mem _ hx)), GoMap.get_set]
    simp [h c (List.mem_cons_self _ _)]

/-- The last record written under a username is the one the index holds. -/
theorem get_insertAll_last (cur : GoMap (Option Credentials)) (pre post : List Credentials)
    (r : Credentials) (h : ∀ x ∈ post, x.Username ≠ r.Username) :
    GoMap.get (insertAll cur (pre ++ r :: post)) r.Username = some (some r) := by
  have e : pre ++ r :: post = (pre ++ [r]) ++ post := by simp
  rw [e]
  unfold insertAll
  rw [List.foldl_append]
  have := get_insertAll_of_not_mem (insertAll cur (pre ++ [r])) post r.Username h
  unfold insertAll at this
  rw [this]
  have e2 := insertAll_append_singleton cur pre r
  unfold insertAll at e2
  rw [e2, GoMap.get_set]
  simp

/-- A key of the filled index is a key of the starting map or a username of
the list. -/
theorem get_insertAll_isSome (cur : GoMap (Option Credentials)) (L : List Credentials)
    (u : String) :
    (GoMap.get (insertAll cur L) u).isSome ↔
      ((GoMap.get cur u).isSome ∨ ∃ r ∈ L, r.Username = u) := by
  induction L generalizing cur with
  | nil => simp [insertAll]
  | cons c L ih =>
    rw [insertAll_cons, ih, GoMap.get_set]
    by_cases hc : c.Username = u
    · simp [hc]
    · simp [hc]

/-! ## Lemmas on the loop -/

theorem rangeInsert_map_some (cur : GoMap (Option Credentials)) (L : List Credentials) :
    rangeInsert cur (L.map some) =
      ((List.range L.length).map (fun n => insertAll cur (L.take (n + 1))), .returned ()) := by
  induction L generalizing cur with
  | nil => rfl
  | cons c L ih =>
    simp only [List.map_cons, rangeInsert, ih, List.length_cons]
    rw [List.range_succ_eq_map]
    simp [insertAll_cons, insertAll, Function.comp_def]

/-- The loop returns exactly when no element of the slice is nil. -/
theorem rangeInsert_returned (xs : List (Option Credentials)) :
    ∀ (cur : GoMap (Option Credentials)),
      (rangeInsert cur xs).2 = .returned () ↔ ∃ L : List Credentials, xs = L.map some := by
  induction xs with
  | nil => intro cur; exact ⟨fun _ => ⟨[], rfl⟩, fun _ => rfl⟩
  | cons x xs ih =>
    intro cur
    cases x with
    | none =>
      constructor
      · intro h
        simp [rangeInsert] at h
      · rintro ⟨L, hL⟩
        cases L with
        | nil => simp at hL
        | cons c L => simp at hL
    | some c =>
      simp only [rangeInsert]
      rw [ih]
      constructor
      · rintro ⟨L, hL⟩
        exact ⟨c :: L, by simp [hL]⟩
      · rintro ⟨L, hL⟩
        cases L with
        | nil => simp at hL
        | cons d L =>
          simp only [List.map_cons, List.cons.injEq] at hL
          exact ⟨L, hL.2⟩

theorem getLastD_map_range {α : Type} (f : Nat → α) (n : Nat) (d : α) :
    ((List.range (n + 1)).map f).getLastD d = f n := by
  rw [List.range_succ]
  simp [List.getLastD_eq_getLast?]

/-! ## Lemmas on `Configure` -/

/-- A call that decodes, reads and parses a list of records publishes the empty
index and then the index of every longer and longer initial part of the list. -/
theorem Configure_of_loads (env : Env) (m : Manager) (ml : RawConfig) (L : List Credentials)
    (h : Loads env ml L) :
    Configure env m ml =
      ⟨m, ({ credentials := some GoMap.empty } : Manager) ::
          (List.range L.length).map
            (fun n => ({ credentials := some (insertAll GoMap.empty (L.take (n + 1))) } : Manager)),
        .returned none⟩ := by
  obtain ⟨c, f, hc, hf, hu⟩ := h
  simp only [Configure, hc, hf, hu, rangeInsert_map_some, List.map_map, Function.comp_def]

theorem Configure_final_of_loads (env : Env) (m : Manager) (ml : RawConfig)
    (L : List Credentials) (h : Loads env ml L) :
    (Configure env m ml).final = { credentials := some (insertAll GoMap.empty L) } := by
  rw [Configure_of_loads env m ml L h]
  simp only [Run.final, List.getLastD_cons]
  cases hn : L.length with
  | zero =>
    have hL : L = [] := List.length_eq_zero.mp hn
    subst hL
    rfl
  | succ n =>
    rw [getLastD_map_range, ← hn, List.take_of_length_le (Nat.le_refl _)]

theorem Configure_exit_of_loads (env : Env) (m : Manager) (ml : RawConfig)
    (L : List Credentials) (h : Loads env ml L) :
    (Configure env m ml).exit = .returned none := by
  rw [Configure_of_loads env m ml L h]

/-- The call returns without error exactly when it loads a list of records. -/
theorem Configure_exit_none_iff (env : Env) (m : Manager) (ml : RawConfig) :
    (Configure env m ml).exit = .returned none ↔ ∃ L, Loads env ml L := by
  constructor
  · intro h
    unfold Configure at h
    split at h
    · simp at h
    · rename_i c hc
      split at h
      · simp at h
      · rename_i f hf
        split at h
        · simp at h
        · rename_i creds hu
          have hr : (rangeInsert GoMap.empty creds).2 = .returned () := by
            cases hx : (rangeInsert GoMap.empty creds).2 with
            | returned v => rfl
            | panicked => simp [hx] at h
          obtain ⟨L, hL⟩ := (rangeInsert_returned creds GoMap.empty).mp hr
          exact ⟨L, c, f, hc, hf, hL ▸ hu⟩
  · rintro ⟨L, hL⟩
    exact Configure_exit_of_loads env m ml L hL

/-- An index without keys answers every call with `InvalidCredentials`. -/
theorem Authenticate_of_lookup_none (env : Env) (m : Manager) (u s : String)
    (h : m.lookup u = none) :
    Authenticate env m u s = .returned ⟨none, none, some (.InvalidCredentials u)⟩ := by
  simp only [Authenticate, h]

/-! ## The index is keyed by the usernames of its records -/

theorem keyed_set (cur : GoMap (Option Credentials)) (c : Credentials)
    (h : ∀ k v, GoMap.get cur k = some v → ∃ x, v = some x ∧ x.Username = k) :
    ∀ k v, GoMap.get (GoMap.set cur c.Username (some c)) k = some v →
      ∃ x, v = some x ∧ x.Username = k := by
  intro k v hv
  rw [GoMap.get_set] at hv
  by_cases hk : c.Username = k
  · rw [if_pos hk] at hv
    exact ⟨c, (Option.some.inj hv).symm, hk⟩
  · rw [if_neg hk] at hv
    exact h k v hv

theorem keyed_rangeInsert (xs : List (Option Credentials)) :
    ∀ (cur : GoMap (Option Credentials)),
      (∀ k v, GoMap.get cur k = some v → ∃ x, v = some x ∧ x.Username = k) →
      ∀ idx ∈ (rangeInsert cur xs).1,
        ∀ k v, GoMap.get idx k = some v → ∃ x, v = some x ∧ x.Username = k := by
  induction xs with
  | nil => intro cur _ idx hidx; simp [rangeInsert] at hidx
  | cons x xs ih =>
    intro cur hcur idx hidx
    cases x with
    | none => simp [rangeInsert] at hidx
    | some c =>
      simp only [rangeInsert, List.mem_cons] at hidx
      rcases hidx with rfl | hidx
      · exact keyed_set cur c hcur
      · exact ih _ (keyed_set cur c hcur) idx hidx

theorem keyed_fresh : KeyedByUsername { credentials := some GoMap.empty } := by
  intro k v h
  simp [Manager.lookup, GoMap.empty, GoMap.get] at h

theorem Configure_later_keyed (env : Env) (m : Manager) (ml : RawConfig) :
    ∀ st ∈ (Configure env m ml).later, KeyedByUsername st := by
  intro st hst
  unfold Configure at hst
  split at hst
  · simp at hst
  · split at hst
    · simp only [List.mem_singleton] at hst
      subst hst
      exact keyed_fresh
    · split at hst
      · simp only [List.mem_singleton] at hst
        subst hst
        exact keyed_fresh
      · simp only [List.mem_cons, List.mem_map] at hst
        rcases hst with rfl | ⟨idx, hidx, rfl⟩
        · exact keyed_fresh
        · intro k v hv
          refine keyed_rangeInsert _ GoMap.empty ?_ idx hidx k v hv
          intro k v h
          simp [GoMap.empty, GoMap.get] at h

theorem getLastD_mem_cons {α : Type} (l : List α) (d : α) : l.getLastD d ∈ d :: l := by
  induction l generalizing d with
  | nil => simp
  | cons a l ih =>
    rw [List.getLastD_cons]
    exact List.mem_cons_of_mem _ (ih a)

theorem Configure_final_keyed (env : Env) (m : Manager) (ml : RawConfig)
    (h : KeyedByUsername m) : KeyedByUsername (Configure env m ml).final := by
  have hmem := getLastD_mem_cons (Configure env m ml).later (Configure env m ml).first
  have hfirst : (Configure env m ml).first = m := by
    unfold Configure
    split
    · rfl
    · split
      · rfl
      · split <;> rfl
  rcases List.mem_cons.mp hmem with e | e
  · unfold Run.final
    rw [e, hfirst]
    exact h
  · exact Configure_later_keyed env m ml _ e

theorem Reachable.keyed {m : Manager} (h : Reachable m) : KeyedByUsername m := by
  induction h with
  | fresh =>
    intro k v hv
    simp [newManager, Manager.lookup] at hv
  | configure env m ml _ ih => exact Configure_final_keyed env m ml ih

/-- A record that passes both checks and gets its scopes is copied field by
field into the identity. -/
theorem Authenticate_of_match (env : Env) (m : Manager) (u s : String) (r : Credentials)
    (sc : ScopeMap) (h : m.lookup u = some (some r)) (hs : r.Secret = s)
    (hsc : deriveScopes env r = .ok sc) :
    Authenticate env m u s =
      .returned ⟨some
        { Id := r.ID
          Username := r.Username
          Mail := r.Mail
          MailVerified := r.MailVerified
          DisplayName := r.DisplayName
          Groups := r.Groups
          UidNumber := r.UIDNumber
          GidNumber := r.GIDNumber
          Opaque := r.Opaque }, sc, none⟩ := by
  simp only [Authenticate, h, hs, if_true, hsc]

/-! ## Authenticate -/

/-- C1: for a record `r` held in the index under its own username, `Authenticate`
with `r.Username` and a secret `s` succeeds when `s` is `r.Secret` and the scope
derivation succeeds, and fails with `InvalidCredentials(r.Username)` when `s`
is any other string. -/
theorem authenticate_secret_decides (env : Env) (m : Manager) (r : Credentials) (s : String)
    (h : m.lookup r.Username = some (some r)) :
    (s = r.Secret → ∀ sc, deriveScopes env r = .ok sc →
      ∃ usr, Authenticate env m r.Username s = .returned ⟨some usr, sc, none⟩) ∧
    (s ≠ r.Secret →
      Authenticate env m r.Username s =
        .returned ⟨none, none, some (.InvalidCredentials r.Username)⟩) := by
  constructor
  · intro hs sc hsc
    subst hs
    exact ⟨_, Authenticate_of_match env m r.Username r.Secret r sc h rfl hsc⟩
  · intro hs
    have hs' : ¬ r.Secret = s := fun e => hs e.symm
    simp only [Authenticate, h, if_neg hs']

theorem authenticate_secret_decides_witness :
    (∃ usr, Authenticate envOk loaded "bob" "builder" = .returned ⟨some usr, lightScopes, none⟩) ∧
    Authenticate envOk loaded "bob" "Builder" =
      .returned ⟨none, none, some (.InvalidCredentials "bob")⟩ :=
  ⟨(authenticate_secret_decides envOk loaded bob "builder" (by decide)).1 (by decide)
      lightScopes rfl,
    (authenticate_secret_decides envOk loaded bob "Builder" (by decide)).2 (by decide)⟩

/-- C2: for a username `u` that is not a key of the index, `Authenticate` fails
with `InvalidCredentials(u)` for every secret, and the result is the same value
as the one `Authenticate` returns for `u` held in an index with a wrong secret;
the never configured manager and the empty index have no key at all. -/
theorem authenticate_unknown_user (env : Env) (m m' : Manager) (u s s' : String)
    (r : Credentials) (h : m.lookup u = none) (h' : m'.lookup u = some (some r))
    (hs : r.Secret ≠ s') :
    Authenticate env m u s = .returned ⟨none, none, some (.InvalidCredentials u)⟩ ∧
    Authenticate env m' u s' = Authenticate env m u s ∧
    Authenticate env { credentials := none } u s =
      .returned ⟨none, none, some (.InvalidCredentials u)⟩ ∧
    Authenticate env { credentials := some GoMap.empty } u s =
      .returned ⟨none, none, some (.InvalidCredentials u)⟩ := by
  refine ⟨Authenticate_of_lookup_none env m u s h, ?_, ?_, ?_⟩
  · rw [Authenticate_of_lookup_none env m u s h]
    simp only [Authenticate, h', if_neg hs]
  · exact Authenticate_of_lookup_none env _ u s rfl
  · exact Authenticate_of_lookup_none env _ u s rfl

theorem authenticate_unknown_user_witness :
    Authenticate envOk loadedBob "alice" "wonderland" =
      .returned ⟨none, none, some (.InvalidCredentials "alice")⟩ ∧
    Authenticate envOk loaded "alice" "wonderland" =
      Authenticate envOk loadedBob "alice" "wonderland" :=
  have h := authenticate_unknown_user envOk loadedBob loaded "alice" "wonderland" "wonderland"
    alice2 (by decide) (by decide) (by decide)
  ⟨h.1, h.2.1⟩

/-- C3: for a record that passes the username and secret checks, the scope set
returned is the one made by `AddLightweightAccountScope(ROLE_OWNER, nil)` when
the identifier is tagged lightweight, and the one made by `AddOwnerScope(nil)`
when the identifier has another tag or the record has no identifier. -/
theorem authenticate_scopes_by_type (env : Env) (m : Manager) (u s : String)
    (r : Credentials) (h : m.lookup u = some (some r)) (hs : r.Secret = s) :
    (∀ id, r.ID = some id → id.Type_ = UserType.USER_TYPE_LIGHTWEIGHT →
      ∀ sc, env.AddLightweightAccountScope Role.ROLE_OWNER none = .ok sc →
        ∃ usr, Authenticate env m u s = .returned ⟨some usr, sc, none⟩) ∧
    (∀ id, r.ID = some id → id.Type_ ≠ UserType.USER_TYPE_LIGHTWEIGHT →
      ∀ sc, env.AddOwnerScope none = .ok sc →
        ∃ usr, Authenticate env m u s = .returned ⟨some usr, sc, none⟩) ∧
    (r.ID = none →
      ∀ sc, env.AddOwnerScope none = .ok sc →
        ∃ usr, Authenticate env m u s = .returned ⟨some usr, sc, none⟩) := by
  refine ⟨?_, ?_, ?_⟩
  · intro id hid hty sc hsc
    exact ⟨_, Authenticate_of_match env m u s r sc h hs
      (by simp only [deriveScopes, hid, hty, if_true, hsc])⟩
  · intro id hid hty sc hsc
    exact ⟨_, Authenticate_of_match env m u s r sc h hs
      (by simp only [deriveScopes, hid, if_neg hty, hsc])⟩
  · intro hid sc hsc
    exact ⟨_, Authenticate_of_match env m u s r sc h hs
      (by simp only [deriveScopes, hid, hsc])⟩

theorem authenticate_scopes_by_type_witness :
    (∃ usr, Authenticate envOk loaded "bob" "builder" = .returned ⟨some usr, lightScopes, none⟩) ∧
    (∃ usr, Authenticate envOk loaded "alice" "looking-glass" =
      .returned ⟨some usr, ownerScopes, none⟩) :=
  ⟨(authenticate_scopes_by_type envOk loaded "bob" "builder" bob (by decide) (by decide)).1
      _ rfl (by decide) lightScopes rfl,
    (authenticate_scopes_by_type envOk loaded "alice" "looking-glass" alice2 (by decide)
      (by decide)).2.2 rfl ownerScopes rfl⟩

/-- C8: for a record that passes the username and secret checks, when the scope
derivation called for its type tag fails with `e`, that is
`AddLightweightAccountScope(ROLE_OWNER, nil)` for an identifier tagged
lightweight and `AddOwnerScope(nil)` for an identifier with another tag or for
no identifier, `Authenticate` returns a nil identity, a nil scope set and the
error `e` itself. -/
theorem authenticate_scope_error (env : Env) (m : Manager) (u s : String) (r : Credentials)
    (e : Err) (h : m.lookup u = some (some r)) (hs : r.Secret = s) :
    (∀ id, r.ID = some id → id.Type_ = UserType.USER_TYPE_LIGHTWEIGHT →
      env.AddLightweightAccountScope Role.ROLE_OWNER none = .error e →
        Authenticate env m u s = .returned ⟨none, none, some e⟩) ∧
    (∀ id, r.ID = some id → id.Type_ ≠ UserType.USER_TYPE_LIGHTWEIGHT →
      env.AddOwnerScope none = .error e →
        Authenticate env m u s = .returned ⟨none, none, some e⟩) ∧
    (r.ID = none →
      env.AddOwnerScope none = .error e →
        Authenticate env m u s = .returned ⟨none, none, some e⟩) := by
  refine ⟨?_, ?_, ?_⟩
  · intro id hid hty he
    simp only [Authenticate, h, hs, if_true, deriveScopes, hid, hty, he]
  · intro id hid hty he
    simp only [Authenticate, h, hs, if_true, deriveScopes, hid, if_neg hty, he]
  · intro hid he
    simp only [Authenticate, h, hs, if_true, deriveScopes, hid, he]

theorem authenticate_scope_error_witness :
    Authenticate envNoScopes loaded "bob" "builder" =
      .returned ⟨none, none, some (.External "marshal lightweight")⟩ ∧
    Authenticate envNoScopes { credentials := some [("alice", some alice)] } "alice"
      "wonderland" = .returned ⟨none, none, some (.External "marshal owner")⟩ ∧
    Authenticate envNoScopes loaded "alice" "looking-glass" =
      .returned ⟨none, none, some (.External "marshal owner")⟩ :=
  ⟨(authenticate_scope_error envNoScopes loaded "bob" "builder" bob
      (.External "marshal lightweight") (by decide) (by decide)).1 _ rfl (by decide) rfl,
    (authenticate_scope_error envNoScopes { credentials := some [("alice", some alice)] }
      "alice" "wonderland" alice (.External "marshal owner") (by decide) (by decide)).2.1
      _ rfl (by decide) rfl,
    (authenticate_scope_error envNoScopes loaded "alice" "looking-glass" alice2
      (.External "marshal owner") (by decide) (by decide)).2.2 rfl rfl⟩

/-- C7: in every state the manager can reach, a record that authenticates gives
an identity whose nine fields are those of the stored record, whose username is
the username passed in, and which does not depend on the record's secret: the
same record stored with another secret, authenticated with that secret, gives
the same result. -/
theorem authenticate_identity_fields (env : Env) (m : Manager) (u s : String)
    (r : Credentials) (sc : ScopeMap) (hm : Reachable m)
    (h : m.lookup u = some (some r)) (hs : r.Secret = s)
    (hsc : deriveScopes env r = .ok sc) :
    ∃ usr, Authenticate env m u s = .returned ⟨some usr, sc, none⟩ ∧
      usr.Id = r.ID ∧ usr.Username = r.Username ∧ usr.Mail = r.Mail ∧
      usr.MailVerified = r.MailVerified ∧ usr.DisplayName = r.DisplayName ∧
      usr.Groups = r.Groups ∧ usr.UidNumber = r.UIDNumber ∧
      usr.GidNumber = r.GIDNumber ∧ usr.Opaque = r.Opaque ∧
      usr.Username = u ∧
      ∀ (m' : Manager) (x : String),
        m'.lookup u = some (some { r with Secret := x }) →
          Authenticate env m' u x = .returned ⟨some usr, sc, none⟩ := by
  refine ⟨_, Authenticate_of_match env m u s r sc h hs hsc, rfl, rfl, rfl, rfl, rfl, rfl, rfl,
    rfl, rfl, ?_, ?_⟩
  · obtain ⟨c, hc, hcu⟩ := hm.keyed u (some r) h
    cases hc
    exact hcu
  · intro m' x hx
    have hd : deriveScopes env { r with Secret := x } = .ok sc := by
      rw [← hsc]
      rfl
    exact Authenticate_of_match env m' u x { r with Secret := x } sc hx rfl hd

theorem authenticate_identity_fields_witness :
    ∃ usr, Authenticate envOk loaded "bob" "builder" = .returned ⟨some usr, lightScopes, none⟩ ∧
      usr.Id = bob.ID ∧ usr.Username = bob.Username ∧ usr.Mail = bob.Mail ∧
      usr.MailVerified = bob.MailVerified ∧ usr.DisplayName = bob.DisplayName ∧
      usr.Groups = bob.Groups ∧ usr.UidNumber = bob.UIDNumber ∧
      usr.GidNumber = bob.GIDNumber ∧ usr.Opaque = bob.Opaque ∧
      usr.Username = "bob" ∧
      ∀ (m' : Manager) (x : String),
        m'.lookup "bob" = some (some { bob with Secret := x }) →
          Authenticate envOk m' "bob" x = .returned ⟨some usr, lightScopes, none⟩ :=
  authenticate_identity_fields envOk loaded "bob" "builder" bob lightScopes
    (Reachable.configure envOk newManager [] Reachable.fresh) (by decide) (by decide) rfl

/-! ## The configuration -/

theorem readsFrom_of_parseConfig (ml : RawConfig) (path : String)
    (h : parseConfig ml = .ok { Users := path }) : ReadsFrom ml path := by
  constructor
  · intro env m e he
    simp only [Configure, h, he]
  · intro env env' m hr hu
    simp only [Configure, h, hr, hu]

/-- C9: a configuration that decodes is parsed to the decoded value after
`init`; when the value under `users` is missing or the empty string the file
read is `/etc/revad/users.json`, when it is a non-empty string `p` the file
read is `p`; and `init` applied twice is `init` applied once. -/
theorem users_path_defaulting (ml : RawConfig) :
    (∀ c, Decode ml { Users := "" } = .ok c → parseConfig ml = .ok c.init) ∧
    (GoMap.get ml "users" = none ∨ GoMap.get ml "users" = some (.str "") →
      parseConfig ml = .ok { Users := "/etc/revad/users.json" } ∧
      ReadsFrom ml "/etc/revad/users.json") ∧
    (∀ p, p ≠ "" → GoMap.get ml "users" = some (.str p) →
      parseConfig ml = .ok { Users := p } ∧ ReadsFrom ml p) ∧
    (∀ c : config, c.init.init = c.init) := by
  refine ⟨?_, ?_, ?_, ?_⟩
  · intro c hc
    simp only [parseConfig, hc]
  · intro h
    have hp : parseConfig ml = .ok { Users := "/etc/revad/users.json" } := by
      rcases h with h | h <;> simp [parseConfig, Decode, h, config.init]
    exact ⟨hp, readsFrom_of_parseConfig ml _ hp⟩
  · intro p hp h
    have hq : parseConfig ml = .ok { Users := p } := by
      simp [parseConfig, Decode, h, config.init, hp]
    exact ⟨hq, readsFrom_of_parseConfig ml _ hq⟩
  · intro c
    by_cases h : c.Users = ""
    · simp [config.init, h]
    · simp [config.init, h]

theorem users_path_defaulting_witness :
    parseConfig [] = .ok { Users := "/etc/revad/users.json" } ∧
    parseConfig [("users", .str "")] = .ok { Users := "/etc/revad/users.json" } ∧
    parseConfig [("users", .str "/tmp/users.json")] = .ok { Users := "/tmp/users.json" } ∧
    ReadsFrom [("users", .str "/tmp/users.json")] "/tmp/users.json" :=
  ⟨((users_path_defaulting []).2.1 (Or.inl rfl)).1,
    ((users_path_defaulting [("users", .str "")]).2.1 (Or.inr rfl)).1,
    ((users_path_defaulting [("users", .str "/tmp/users.json")]).2.2.1 "/tmp/users.json"
      (by decide) rfl).1,
    ((users_path_defaulting [("users", .str "/tmp/users.json")]).2.2.1 "/tmp/users.json"
      (by decide) rfl).2⟩

/-! ## Configure -/

/-- C4: after a successful `Configure` over a list of records `L`, the keys of
the index are the usernames that occur in `L`, every username maps to the last
record of `L` that carries it, and the index is the same for every manager,
configuration and environment whose load yields the same list. -/
theorem configure_last_write_wins (env : Env) (m : Manager) (ml : RawConfig)
    (L : List Credentials) (h : Loads env ml L) :
    (Configure env m ml).exit = .returned none ∧
    (∀ u, ((Configure env m ml).final.lookup u).isSome ↔ ∃ r ∈ L, r.Username = u) ∧
    (∀ pre r post, L = pre ++ r :: post → (∀ x ∈ post, x.Username ≠ r.Username) →
      (Configure env m ml).final.lookup r.Username = some (some r)) ∧
    (∀ (env' : Env) (m' : Manager) (ml' : RawConfig), Loads env' ml' L →
      (Configure env' m' ml').final = (Configure env m ml).final) := by
  refine ⟨Configure_exit_of_loads env m ml L h, ?_, ?_, ?_⟩
  · intro u
    rw [Configure_final_of_loads env m ml L h]
    simp only [Manager.lookup]
    rw [get_insertAll_isSome]
    simp [GoMap.empty, GoMap.get]
  · intro pre r post hL hpost
    rw [Configure_final_of_loads env m ml L h]
    simp only [Manager.lookup]
    rw [hL]
    exact get_insertAll_last _ pre post r hpost
  · intro env' m' ml' h'
    rw [Configure_final_of_loads env m ml L h, Configure_final_of_loads env' m' ml' L h']

theorem configure_last_write_wins_witness :
    (Configure envOk loadedBob []).exit = .returned none ∧
    (Configure envOk loadedBob []).final.lookup "alice" = some (some alice2) :=
  have h := configure_last_write_wins envOk loadedBob [] [alice, bob, alice2]
    ⟨{ Users := "/etc/revad/users.json" }, [1], rfl, rfl, rfl⟩
  ⟨h.1, h.2.2.1 [alice, bob] alice2 [] rfl (by simp)⟩

/-- C6: a successful `Configure` over `L1` followed by a successful `Configure`
over `L2` leaves the index that a successful `Configure` over `L2` leaves on a
new manager, and a username of `L1` that does not occur in `L2` then fails
`Authenticate` with `InvalidCredentials` for every secret. -/
theorem configure_replaces_index (envA envB : Env) (m : Manager) (mlA mlB : RawConfig)
    (L1 L2 : List Credentials) (h1 : Loads envA mlA L1) (h2 : Loads envB mlB L2) :
    (Configure envA m mlA).exit = .returned none ∧
    (Configure envB (Configure envA m mlA).final mlB).exit = .returned none ∧
    (Configure envB (Configure envA m mlA).final mlB).final =
      (Configure envB newManager mlB).final ∧
    (∀ u, (∃ r ∈ L1, r.Username = u) → (∀ r ∈ L2, r.Username ≠ u) →
      ∀ (env : Env) (s : String),
        Authenticate env (Configure envB (Configure envA m mlA).final mlB).final u s =
          .returned ⟨none, none, some (.InvalidCredentials u)⟩) := by
  refine ⟨Configure_exit_of_loads envA m mlA L1 h1, Configure_exit_of_loads envB _ mlB L2 h2,
    ?_, ?_⟩
  · rw [Configure_final_of_loads envB _ mlB L2 h2,
      Configure_final_of_loads envB newManager mlB L2 h2]
  · intro u _ hu env s
    apply Authenticate_of_lookup_none
    rw [Configure_final_of_loads envB _ mlB L2 h2]
    simp only [Manager.lookup]
    rw [get_insertAll_of_not_mem _ L2 u hu]
    rfl

theorem configure_replaces_index_witness :
    (Configure envOk (Configure envOk newManager []).final
        [("users", .str "/tmp/users.json")]).final =
      (Configure envOk newManager [("users", .str "/tmp/users.json")]).final ∧
    Authenticate envOk (Configure envOk (Configure envOk newManager []).final
        [("users", .str "/tmp/users.json")]).final "alice" "looking-glass" =
      .returned ⟨none, none, some (.InvalidCredentials "alice")⟩ :=
  have h := configure_replaces_index envOk envOk newManager [] [("users", .str "/tmp/users.json")]
    [alice, bob, alice2] [bob]
    ⟨{ Users := "/etc/revad/users.json" }, [1], rfl, rfl, rfl⟩
    ⟨{ Users := "/tmp/users.json" }, [2], rfl, rfl, rfl⟩
  ⟨h.2.2.1, h.2.2.2 "alice" ⟨alice, by simp, rfl⟩ (by decide) envOk "looking-glass"⟩

/-- C5 fails as stated: a manager that holds `bob` is configured with a `users`
value that is a number; `Configure` returns the decoding error, the index is
the one held before, and `bob` still authenticates. -/
theorem configure_failure_counterexample :
    (Configure envOk loaded [("users", .num 42)]).exit =
      .returned (some (.Wrap (.External "users: expected type string")
        "error decoding conf")) ∧
    (Configure envOk loaded [("users", .num 42)]).final = loaded ∧
    Authenticate envOk (Configure envOk loaded [("users", .num 42)]).final "bob" "builder" ≠
      .returned ⟨none, none, some (.InvalidCredentials "bob")⟩ := by
  decide

/-- C5, amended: a `Configure` that returns an error `e` either failed to decode
the configuration, and then it has not written the manager at all: the state at
entry is the only value the manager has during the call, it is the state at
exit, and every `Authenticate` returns what it returned before the call (so a
manager without keys still fails every call with `InvalidCredentials`); or it
failed to read or to parse the file, and then the manager has had the state at
entry and then the empty index, and every `Authenticate` fails with
`InvalidCredentials`. -/
theorem configure_failure_state (env : Env) (m : Manager) (ml : RawConfig) (e : Err)
    (h : (Configure env m ml).exit = .returned (some e)) :
    (∃ e', Decode ml { Users := "" } = .error e' ∧ e = .Wrap e' "error decoding conf" ∧
      (Configure env m ml).states = [m] ∧
      (Configure env m ml).final = m ∧
      (∀ (env' : Env) (u s : String),
        Authenticate env' (Configure env m ml).final u s = Authenticate env' m u s) ∧
      ((∀ k, m.lookup k = none) → ∀ (env' : Env) (u s : String),
        Authenticate env' (Configure env m ml).final u s =
          .returned ⟨none, none, some (.InvalidCredentials u)⟩)) ∨
    ((∃ c, parseConfig ml = .ok c ∧
        (env.ReadFile c.Users = .error e ∨
          ∃ f, env.ReadFile c.Users = .ok f ∧ env.Unmarshal f = .error e)) ∧
      (Configure env m ml).states = [m, { credentials := some GoMap.empty }] ∧
      (Configure env m ml).final = { credentials := some GoMap.empty } ∧
      ∀ (env' : Env) (u s : String),
        Authenticate env' (Configure env m ml).final u s =
          .returned ⟨none, none, some (.InvalidCredentials u)⟩) := by
  cases hp : parseConfig ml with
  | error e0 =>
    left
    have hx : (Configure env m ml) = ⟨m, [], .returned (some e0)⟩ := by
      simp only [Configure, hp]
    rw [hx] at h
    have he : e0 = e := by
      simpa using h
    subst he
    have hfin : (Configure env m ml).final = m := by
      rw [hx]
      rfl
    cases hd : Decode ml { Users := "" } with
    | error e' =>
      refine ⟨e', rfl, ?_, ?_, hfin, ?_, ?_⟩
      · simp only [parseConfig, hd] at hp
        cases hp
        rfl
      · rw [hx]
        rfl
      · intro env' u s
        rw [hfin]
      · intro hk env' u s
        rw [hfin]
        exact Authenticate_of_lookup_none env' m u s (hk u)
    | ok c =>
      simp only [parseConfig, hd] at hp
      cases hp
  | ok c =>
    right
    have key : (env.ReadFile c.Users = .error e ∨
          ∃ f, env.ReadFile c.Users = .ok f ∧ env.Unmarshal f = .error e) ∧
        (Configure env m ml).states = [m, { credentials := some GoMap.empty }] ∧
        (Configure env m ml).final = { credentials := some GoMap.empty } := by
      cases hr : env.ReadFile c.Users with
      | error e1 =>
        have hx : (Configure env m ml) =
            ⟨m, [{ credentials := some GoMap.empty }], .returned (some e1)⟩ := by
          simp only [Configure, hp, hr]
        rw [hx] at h
        have he : e1 = e := by
          simpa using h
        subst he
        exact ⟨Or.inl rfl, by rw [hx]; rfl, by rw [hx]; rfl⟩
      | ok f =>
        cases hu : env.Unmarshal f with
        | error e1 =>
          have hx : (Configure env m ml) =
              ⟨m, [{ credentials := some GoMap.empty }], .returned (some e1)⟩ := by
            simp only [Configure, hp, hr, hu]
          rw [hx] at h
          have he : e1 = e := by
            simpa using h
          subst he
          exact ⟨Or.inr ⟨f, rfl, hu⟩, by rw [hx]; rfl, by rw [hx]; rfl⟩
        | ok creds =>
          exfalso
          simp only [Configure, hp, hr, hu] at h
          split at h <;> simp at h
    refine ⟨⟨c, rfl, key.1⟩, key.2.1, key.2.2, ?_⟩
    intro env' u s
    rw [key.2.2]
    exact Authenticate_of_lookup_none env' _ u s rfl

theorem configure_failure_state_witness :
    ((Configure envOk loaded [("users", .num 42)]).states = [loaded] ∧
      Authenticate envOk (Configure envOk loaded [("users", .num 42)]).final "bob" "builder" =
        Authenticate envOk loaded "bob" "builder") ∧
    ((Configure envOk loaded [("users", .str "/tmp/broken.json")]).states =
        [loaded, { credentials := some GoMap.empty }] ∧
      Authenticate envOk (Configure envOk loaded [("users", .str "/tmp/broken.json")]).final
        "bob" "builder" = .returned ⟨none, none, some (.InvalidCredentials "bob")⟩) := by
  constructor
  · rcases configure_failure_state envOk loaded [("users", .num 42)]
      (.Wrap (.External "users: expected type string") "error decoding conf")
      (by decide) with ⟨_, _, _, hst, _, hau, _⟩ | ⟨⟨c, hc, _⟩, _⟩
    · exact ⟨hst, hau envOk "bob" "builder"⟩
    · simp [parseConfig, Decode, GoMap.get] at hc
  · rcases configure_failure_state envOk loaded [("users", .str "/tmp/broken.json")]
      (.External "invalid character") (by decide) with ⟨_, hd, _⟩ | ⟨_, hst, _, hau⟩
    · simp [Decode, GoMap.get] at hd
    · exact ⟨hst, hau envOk "bob" "builder"⟩

/-- C10 fails as stated: while `Configure` replaces an index that holds `bob` by
an index that holds `alice` and `bob`, the manager has the empty index and then
an index with `alice` alone, neither of which is the previous or the new index;
in the empty one `bob`, a user of both, does not authenticate. -/
theorem configure_atomic_counterexample :
    ({ credentials := some GoMap.empty } : Manager) ∈ (Configure envOk loadedBob []).states ∧
    ({ credentials := some GoMap.empty } : Manager) ≠ loadedBob ∧
    ({ credentials := some GoMap.empty } : Manager) ≠ (Configure envOk loadedBob []).final ∧
    ({ credentials := some [("alice", some alice)] } : Manager) ∈
      (Configure envOk loadedBob []).states ∧
    ({ credentials := some [("alice", some alice)] } : Manager) ≠ loadedBob ∧
    ({ credentials := some [("alice", some alice)] } : Manager) ≠
      (Configure envOk loadedBob []).final ∧
    Authenticate envOk { credentials := some GoMap.empty } "bob" "builder" =
      .returned ⟨none, none, some (.InvalidCredentials "bob")⟩ := by
  decide

/-- C10, amended: during a successful `Configure` over a list `L` the manager
has, in this order, the state at entry, the empty index, and the index of each
initial part of `L` of length 1 up to the length of `L`; the last one is the
new index, and the call returns no error. The empty index is in place before
the file is read: with the same configuration, a call whose read fails has had
the state at entry and then the empty index. -/
theorem configure_states_in_order (env : Env) (m : Manager) (ml : RawConfig)
    (L : List Credentials) (h : Loads env ml L) :
    (Configure env m ml).states =
      m :: (List.range (L.length + 1)).map
        (fun n => ({ credentials := some (insertAll GoMap.empty (L.take n)) } : Manager)) ∧
    (Configure env m ml).final = { credentials := some (insertAll GoMap.empty L) } ∧
    (Configure env m ml).exit = .returned none ∧
    (∀ (env' : Env) (m' : Manager) (c : config) (e : Err), parseConfig ml = .ok c →
      env'.ReadFile c.Users = .error e →
        (Configure env' m' ml).states = [m', { credentials := some GoMap.empty }]) := by
  refine ⟨?_, Configure_final_of_loads env m ml L h, Configure_exit_of_loads env m ml L h, ?_⟩
  · rw [Configure_of_loads env m ml L h, List.range_succ_eq_map]
    simp [Run.states, insertAll, Function.comp_def]
  · intro env' m' c e hc he
    simp only [Configure, hc, he, Run.states]

theorem configure_states_in_order_witness :
    (Configure envOk loadedBob []).states =
      [loadedBob, { credentials := some [] },
        { credentials := some [("alice", some alice)] },
        { credentials := some [("bob", some bob), ("alice", some alice)] },
        { credentials := some [("alice", some alice2), ("bob", some bob)] }] :=
  (configure_states_in_order envOk loadedBob [] [alice, bob, alice2]
    ⟨{ Users := "/etc/revad/users.json" }, [1], rfl, rfl, rfl⟩).1

end RevaAuthJson
